import Mathlib

/-!
Shallow embedding of the USTSA points calculator (`points.py`).

Modelling conventions:
* `Decimal` arithmetic (the script works at a 64-digit precision) is modelled
  as exact rational arithmetic over `ℚ`.
* Python object identity between a `Result` and its `Race`
  (`result.race is race`) is modelled by the index of the race in the global
  `races` list, since every `Result` stores `races[raceid]` and that list is
  built exactly once.
* The mutable global `zeroes` dictionary is threaded explicitly as a state of
  type `RaceType → ℚ`.
* A raised Python exception is modelled by `Option.none`.
-/

namespace USTSA

/-- The `RaceType` enum of the script: `GS`, `SC`, `CL`. -/
inductive RaceType where
  | GS
  | SC
  | CL
deriving DecidableEq, BEq, Repr

/-- `RaceType.ffactor`: the scale factor of each category
(`660.0` for GS, `500.0` for SC and CL). -/
def RaceType.ffactor : RaceType → ℚ
  | .GS => 660
  | .SC => 500
  | .CL => 500

/-- The order in which Python iterates the `RaceType` enum. -/
def RaceType.all : List RaceType := [.GS, .SC, .CL]

/-- The `result` token stored on a `Result`
(`Result.FIN`, `Result.DNF`, `Result.DNS`, `Result.DSQ`). -/
inductive RStatus where
  | FIN
  | DNF
  | DNS
  | DSQ
deriving DecidableEq, BEq, Repr

/-- One `Result` object: the stored `_time`, the `result` token, and the index
of its race in the `races` list (`self.race = races[raceid]`). -/
structure ResultData where
  timeRaw : Option ℚ
  res : RStatus
  raceIdx : ℕ
deriving DecidableEq, Repr

/-- `Result.finished`: false when the token is `DNF`/`DNS`/`DSQ` or no time is
stored, true otherwise. -/
def ResultData.finished (r : ResultData) : Bool :=
  !(r.res == .DNF || r.res == .DNS || r.res == .DSQ || r.timeRaw.isNone)

/-- `Result.started`: false for a `DNS` token, and for a missing time whose
token is neither `DNF` nor `DSQ`; true otherwise. -/
def ResultData.started (r : ResultData) : Bool :=
  !(r.res == .DNS || (r.timeRaw.isNone && !(r.res == .DNF) && !(r.res == .DSQ)))

/-- The `Result.time` property: the stored time when finished, else `None`. -/
def ResultData.time (r : ResultData) : Option ℚ :=
  if r.finished then r.timeRaw else none

/-- One `Racer`: name, list of results (one per race column), injury flag.
The `gender` field of the script is used only to group the report tables and
plays no part in scoring, so it is not modelled. -/
structure Racer where
  name : String
  results : List ResultData
  inj : Bool
deriving DecidableEq, Repr

/-- One `Race`: its category, its name, and the optional externally supplied
penalty from the third `#`-field of the CSV header (modelled as a rational). -/
structure RaceData where
  rtype : RaceType
  rname : String
  sto_penalty : Option ℚ
deriving DecidableEq, Repr

/-- The global state a run scores against: the `races` and `racers` lists, the
raw previous-season archive, and the previous season's zero factors
(`lszeroes`, already clamped on load). -/
structure Env where
  races : List RaceData
  racers : List Racer
  prevseason : List (String × List (RaceType × ℚ))
  lszeroes : RaceType → ℚ

/-- `races[i]`. An out-of-range index would raise `IndexError` in Python and
never occurs in a run; a placeholder is returned there. -/
def Env.race (env : Env) (i : ℕ) : RaceData :=
  env.races.getD i ⟨.GS, "", none⟩

/-- The load-time clamping of one archive entry at one category (lines 53-57):
a missing category, or a value above the scale factor, becomes the scale
factor. -/
def loadScore (entry : List (RaceType × ℚ)) (rt : RaceType) : ℚ :=
  match entry.lookup rt with
  | some v => if rt.ffactor < v then rt.ffactor else v
  | none => rt.ffactor

/-- `Racer.ls` combined with the load-time clamping: a racer absent from the
archive gets the scale-factor defaults. -/
def carriedOf (arch : List (String × List (RaceType × ℚ))) (name : String)
    (rt : RaceType) : ℚ :=
  match arch.lookup name with
  | some entry => loadScore entry rt
  | none => rt.ffactor

/-- The carried score of a racer for a category. -/
def Racer.ls (env : Env) (r : Racer) (rt : RaceType) : ℚ :=
  carriedOf env.prevseason r.name rt

/-- All results belonging to `races[ri]`, paired with their racer, in the
order the nested loops `for k in racers: for j in results` visit them. -/
def Env.resultsIn (env : Env) (ri : ℕ) : List (Racer × ResultData) :=
  env.racers.flatMap fun r =>
    (r.results.filter fun res => res.raceIdx == ri).map fun res => (r, res)

/-- One step of the `Race.best_time` loop: keep the smaller finished time;
`none` models the `Decimal("inf")` starting value. -/
def btStep (acc : Option ℚ) (pr : Racer × ResultData) : Option ℚ :=
  match pr.2.time, acc with
  | some t, some b => if t < b then some t else some b
  | some t, none => some t
  | none, _ => acc

/-- `Race.best_time`: the minimum finished time over the race's results, or
`none` (infinity) when nobody finished. -/
def bestTime (env : Env) (ri : ℕ) : Option ℚ :=
  (env.resultsIn ri).foldl btStep none

/-- `Result.raw_points = (time / race.best_time - 1) * race.rtype.ffactor` for
finished results and `None` otherwise. The `none` branch of `best_time`
mirrors `Decimal`'s `t / inf = 0` and cannot be reached by a finished result
of a rostered race, which is itself a finisher. -/
def rawPoints (env : Env) (res : ResultData) : Option ℚ :=
  match res.time with
  | none => none
  | some t =>
    some (((match bestTime env res.raceIdx with
            | some b => t / b
            | none => 0) - 1) * (env.race res.raceIdx).rtype.ffactor)

/-- `Result.place`: starts at 1 and is incremented once for every finished
result of the same race whose time is strictly smaller; `None` when not
finished. Both `time` reads are guarded by `finished`, so the defaults of
`Option.getD` are never used. -/
def place (env : Env) (res : ResultData) : Option ℕ :=
  if res.finished then
    some (env.racers.foldl
      (fun acc r =>
        r.results.foldl
          (fun acc2 r2 =>
            if r2.raceIdx == res.raceIdx && r2.finished &&
                decide (r2.time.getD 0 < res.time.getD 0) then
              acc2 + 1
            else acc2)
          acc)
      1)
  else none

/-- `Race.A`: the sum of the five lowest carried scores (in the race's
category) among racers whose result in this race started. Python's stable
ascending `list.sort()` is modelled by the stable `List.insertionSort`. -/
def raceA (env : Env) (ri : ℕ) : ℚ :=
  let points_start := (env.resultsIn ri).filterMap fun pr =>
    if pr.2.started then some (Racer.ls env pr.1 (env.race ri).rtype) else none
  ((points_start.insertionSort (· ≤ ·)).take 5).sum

/-- The sort key of `Race.BC`: ascending carried score (Python's stable sort
with `key=lambda l: l[0]`, matched by the stable `List.insertionSort`). -/
def pairLe (p q : ℚ × ResultData) : Prop := p.1 ≤ q.1

instance : DecidableRel pairLe := fun p q =>
  inferInstanceAs (Decidable (p.1 ≤ q.1))

instance : IsTotal (ℚ × ResultData) pairLe :=
  ⟨fun p q => le_total p.1 q.1⟩

instance : IsTrans (ℚ × ResultData) pairLe :=
  ⟨fun _ _ _ h h2 => le_trans h h2⟩

/-- The condition of the first `Race.BC` loop: the result finished in the top
ten (`finished and place <= 10`; `place` is some integer whenever `finished`
holds, so the `Option.getD` default is never consulted). -/
def qualB (env : Env) (pr : Racer × ResultData) : Bool :=
  pr.2.finished && decide ((place env pr.2).getD 0 ≤ 10)

/-- `Race.BC`. The first loop collects the racers with a finished top-ten
result; the second re-scans each such racer's results for this race and pairs
the carried score with the result; the five pairs with the lowest carried
score are kept, `B` summing the carried scores and `C` the raw points.
`raw_points` of an unfinished result would be a Python `None` (a `TypeError`
on the `C` sum); the `Option.getD 0` there is unreachable when every racer
has at most one result per race. -/
def raceBC (env : Env) (ri : ℕ) : ℚ × ℚ :=
  let tt_finish : List Racer := (env.resultsIn ri).filterMap fun pr =>
    if qualB env pr then some pr.1
    else none
  let points_finish : List (ℚ × ResultData) := tt_finish.flatMap fun r =>
    (r.results.filter fun res => res.raceIdx == ri).map fun res =>
      (Racer.ls env r (env.race ri).rtype, res)
  let chosen := (points_finish.insertionSort pairLe).take 5
  ((chosen.map Prod.fst).sum, (chosen.map fun p => (rawPoints env p.2).getD 0).sum)

/-- The pair list described by the specification: for each result of the race
that finished in the top ten, the racer's carried score paired with that
result. -/
def qualPairs (env : Env) (ri : ℕ) : List (ℚ × ResultData) :=
  (env.resultsIn ri).filterMap fun pr =>
    if qualB env pr then some (Racer.ls env pr.1 (env.race ri).rtype, pr.2)
    else none

/-- `Race.penalty`: the stored override when the race was constructed with
one, else `(A + B - C) / 10`. Memoisation in the script caches these values;
the model recomputes the same pure value. -/
def penalty (env : Env) (ri : ℕ) : ℚ :=
  match (env.race ri).sto_penalty with
  | some p => p
  | none => (raceA env ri + (raceBC env ri).1 - (raceBC env ri).2) / 10

/-- `Result.points = raw_points + race.penalty`, defined exactly when the
result is finished. -/
def pointsOf (env : Env) (res : ResultData) : Option ℚ :=
  match rawPoints env res with
  | some rp => some (rp + penalty env res.raceIdx)
  | none => none

/-- `Racer.last_penalized`: the carried score discounted toward last season's
zero factor, capped at the scale factor. -/
def lastPenalized (env : Env) (r : Racer) (rt : RaceType) : ℚ :=
  if r.inj then
    min (1.22 * Racer.ls env r rt + 0.22 * env.lszeroes rt) rt.ffactor
  else
    min (1.44 * Racer.ls env r rt + 0.44 * env.lszeroes rt) rt.ffactor

/-- The list `best_two` builds before appending the carry: the `points` of
every finished result of the racer in this category, in result order. The
`Option.getD` default is unreachable (`points` is defined on finished
results). -/
def seasonPoints (env : Env) (r : Racer) (rt : RaceType) : List ℚ :=
  r.results.filterMap fun res =>
    if res.time.isSome && ((env.race res.raceIdx).rtype == rt) then
      some ((pointsOf env res).getD 0)
    else none

/-- `Racer.best_two`: season points plus two copies of the penalized carry,
sorted ascending, first two kept. -/
def bestTwo (env : Env) (r : Racer) (rt : RaceType) : List ℚ :=
  ((seasonPoints env r rt ++
      [lastPenalized env r rt, lastPenalized env r rt]).insertionSort
    (· ≤ ·)).take 2

/-- The raw mean `(templist[0] + templist[1]) / 2` computed inside
`Racer.best_avg`, before the zero-factor adjustment. -/
def categoryAvg (env : Env) (r : Racer) (rt : RaceType) : ℚ :=
  let bt := bestTwo env r rt
  (bt.getD 0 0 + bt.getD 1 0) / 2

/-- `Racer.best_avg` with the mutable `zeroes` dictionary threaded
explicitly: when the racer's raw average beats the current zero factor the
zero factor is lowered to it, and the zero-adjusted average is returned
together with the new state. -/
def bestAvg (env : Env) (z : RaceType → ℚ) (r : Racer) (rt : RaceType) :
    ℚ × (RaceType → ℚ) :=
  let avg := categoryAvg env r rt
  let z' := if avg < z rt then Function.update z rt avg else z
  (avg - z' rt, z')

/-- `Racer.season_avg`: the mean over the three categories of `best_avg`,
threading the `zeroes` state through the comprehension in enum order. -/
def seasonAvg (env : Env) (z : RaceType → ℚ) (r : Racer) :
    ℚ × (RaceType → ℚ) :=
  let p := RaceType.all.foldl
    (fun acc rt =>
      let q := bestAvg env acc.2 r rt
      (acc.1 + q.1, q.2))
    ((0 : ℚ), z)
  (p.1 / 3, p.2)

/-- `zeroes = {this: this.ffactor for this in RaceType}`: the initial zero
factors. -/
def zeroesInit : RaceType → ℚ := fun rt => rt.ffactor

/-- One step of the warm-up loop: evaluate a racer's `season_avg` for its
zero-factor side effect. -/
def warmStep (env : Env) (z : RaceType → ℚ) (r : Racer) : RaceType → ℚ :=
  (seasonAvg env z r).2

/-- The warm-up pass (lines 313-314): every racer's `season_avg` is evaluated
once, so the zeroes are fully lowered before sorting and reporting. -/
def warmup (env : Env) : RaceType → ℚ :=
  env.racers.foldl (warmStep env) zeroesInit

/-- One racer's entry of the season file: `best_avg` per category in enum
order, threading the zero state. -/
def archiveRow (env : Env) (z : RaceType → ℚ) (r : Racer) :
    List (RaceType × ℚ) × (RaceType → ℚ) :=
  RaceType.all.foldl
    (fun acc rt =>
      let q := bestAvg env acc.2 r rt
      (acc.1 ++ [(rt, q.1)], q.2))
    ([], z)

/-- One step of the season-file loop over racers. -/
def seasonobjStep (env : Env)
    (acc : List (String × List (RaceType × ℚ)) × (RaceType → ℚ)) (r : Racer) :
    List (String × List (RaceType × ℚ)) × (RaceType → ℚ) :=
  let q := archiveRow env acc.2 r
  (acc.1 ++ [(r.name, q.1)], q.2)

/-- The racer part of `seasonobj` (lines 319-321), threading the zero state.
The script writes the entries in ranked order, which permutes the entries of
the JSON dictionary but not its contents, so roster order is used here. -/
def seasonobjRacers (env : Env) (z : RaceType → ℚ) :
    List (String × List (RaceType × ℚ)) × (RaceType → ℚ) :=
  env.racers.foldl (seasonobjStep env) ([], z)

/-- The archive object written at the end of a run (lines 319-322): one entry
per racer plus the reserved `data-zeroes` entry holding each category's final
zero factor. -/
def seasonobj (env : Env) : List (String × List (RaceType × ℚ)) :=
  let p := seasonobjRacers env (warmup env)
  p.1 ++ [("data-zeroes", RaceType.all.map fun rt => (rt, p.2 rt))]

/-! ### The time-field evaluator (`timeeval`, lines 263-279) -/

/-- A nonempty all-digit character list. -/
def digits1 (cs : List Char) : Bool := !cs.isEmpty && cs.all Char.isDigit

/-- The coefficient of a decimal numeric string: digits with at most one
decimal point and at least one digit. -/
def isCoeff (cs : List Char) : Bool :=
  match cs.splitOn '.' with
  | [a] => digits1 a
  | [a, b] => a.all Char.isDigit && b.all Char.isDigit && (!a.isEmpty || !b.isEmpty)
  | _ => false

/-- Drop one leading sign character. -/
def stripSign : List Char → List Char
  | '+' :: cs => cs
  | '-' :: cs => cs
  | cs => cs

/-- The ASCII characters Python's `str.strip()` removes: tab through carriage
return (9-13), the separator controls (28-31) and the space (32). -/
def isPySpace (c : Char) : Bool :=
  (9 ≤ c.toNat && c.toNat ≤ 13) || c.toNat == 32 ||
    (28 ≤ c.toNat && c.toNat ≤ 31)

/-- `value.strip()`: remove leading and trailing whitespace. -/
def pyStripWS (cs : List Char) : List Char :=
  ((cs.dropWhile isPySpace).reverse.dropWhile isPySpace).reverse

/-- The `Decimal` constructor's preprocessing of a string argument,
`value.strip().replace("_", "")`: strip outer whitespace, then remove every
underscore. -/
def pyNormalize (cs : List Char) : List Char :=
  (pyStripWS cs).filter fun c => c != '_'

/-- The `Decimal` special values, after sign stripping and lower-casing:
`inf`, `infinity`, and `nan`/`snan` with an optional all-digit payload. -/
def isSpecialValue (cs : List Char) : Bool :=
  cs == "inf".data || cs == "infinity".data ||
    (match cs with
     | 'n' :: 'a' :: 'n' :: d => d.all Char.isDigit
     | 's' :: 'n' :: 'a' :: 'n' :: d => d.all Char.isDigit
     | _ => false)

/-- Whether `Decimal(s)` succeeds: after stripping outer whitespace and all
underscores, a case-insensitive `[sign] (digits [. digits] | . digits)
[(e|E) [sign] digits]` numeric string, or a special value `Inf`/`Infinity`/
`NaN`/`sNaN` with optional sign.  Non-ASCII input (the Unicode decimal
digits and whitespace the Python constructor also honours) is outside the
model. -/
def isDecChars (cs : List Char) : Bool :=
  let body := (stripSign (pyNormalize cs)).map Char.toLower
  isSpecialValue body ||
    (match body.splitOn 'e' with
     | [c] => isCoeff c
     | [c, ex] => isCoeff c && digits1 (stripSign ex)
     | _ => false)

/-- String form of `isDecChars`. -/
def isDecimalString (s : String) : Bool := isDecChars s.data

/-- Numeric value of an all-digit character list. -/
def digitsToNat (cs : List Char) : ℕ :=
  cs.foldl (fun n c => 10 * n + (c.toNat - 48)) 0

/-- Value of a decimal coefficient. -/
def coeffVal (cs : List Char) : ℚ :=
  match cs.splitOn '.' with
  | [a] => (digitsToNat a : ℚ)
  | [a, b] => (digitsToNat (a ++ b) : ℚ) / 10 ^ b.length
  | _ => 0

/-- Value of a signed exponent. -/
def expVal (cs : List Char) : ℤ :=
  match cs with
  | '-' :: d => -(digitsToNat d : ℤ)
  | '+' :: d => (digitsToNat d : ℤ)
  | d => (digitsToNat d : ℤ)

/-- Exact rational value of a decimal numeric string, after the same
preprocessing as the constructor.  The non-finite special values
(`Infinity`/`NaN`), which `ℚ` cannot carry, fall through the coefficient
parse to a placeholder `0`: every settled claim reads only whether `timeeval`
accepts a field, never the parsed magnitude of a degenerate time. -/
def decValue (s : String) : ℚ :=
  let cs := pyNormalize s.data
  let neg : Bool :=
    match cs with
    | '-' :: _ => true
    | _ => false
  let body := (stripSign cs).map Char.toLower
  let v : ℚ :=
    match body.splitOn 'e' with
    | [c] => coeffVal c
    | [c, ex] => coeffVal c * (10 : ℚ) ^ expVal ex
    | _ => 0
  if neg then -v else v

/-- The values `timeeval` can produce: the Python `None` for an empty field
(a did-not-start marker), a finished time, or one of the three status
tokens. -/
inductive TimeVal where
  | blank
  | fin (t : ℚ)
  | dnf
  | dns
  | dsq
deriving DecidableEq, Repr

/-- `time.partition(':')`: the characters before the first colon. -/
def beforeColon (s : String) : List Char := s.data.takeWhile (· ≠ ':')

/-- `time.partition(':')`: the characters after the first colon. -/
def afterColon (s : String) : List Char :=
  (s.data.dropWhile (· ≠ ':')).drop 1

/-- `timeeval` (lines 263-279). `none` models a raised exception: the final
`ValueError`, or an `InvalidOperation` escaping the minute/second parses of
the colon branch. -/
def timeeval (s : String) : Option TimeVal :=
  if s = "" then some .blank
  else if isDecimalString s then some (.fin (decValue s))
  else if s.data.contains ':' then
    if isDecChars (beforeColon s) && isDecChars (afterColon s) then
      some (.fin (60 * decValue (String.mk (beforeColon s)) +
        decValue (String.mk (afterColon s))))
    else none
  else if s = "DNF" then some .dnf
  else if s = "DNS" then some .dns
  else if s = "DSQ" then some .dsq
  else none

/-- The loading loop runs `timeeval` on every time field of every roster row;
one exception aborts the whole load. -/
def loadTimes (rows : List (List String)) : Option (List (List TimeVal)) :=
  rows.mapM fun row => row.mapM timeeval

/-- A run's archive output: the season file is only produced after every time
field has loaded; `k` abstracts the scoring stages in between, and `none`
means the run aborted before anything was written. -/
def runArchive (rows : List (List String))
    (k : List (List TimeVal) → List (String × List (RaceType × ℚ))) :
    Option (List (String × List (RaceType × ℚ))) :=
  (loadTimes rows).map k

/-- Modelled from the spec: an `MM:SS(.ss)` time value — minute digits, a
colon, second digits with an optional fractional part. -/
def isMMSSSpec (s : String) : Bool :=
  match s.data.splitOn ':' with
  | [m, sec] =>
    digits1 m &&
      (match sec.splitOn '.' with
       | [w] => digits1 w
       | [w, f] => digits1 w && digits1 f
       | _ => false)
  | _ => false

/-- Modelled from the spec: the four accepted time-field forms named by the
claim — empty, a decimal value, an `MM:SS(.ss)` value, or a status token. -/
def validTimeFieldSpec (s : String) : Bool :=
  s == "" || isDecimalString s || isMMSSSpec s ||
    s == "DNF" || s == "DNS" || s == "DSQ"

/-- The amended acceptance condition: the colon form accepts any pair of
decimal values around the first colon. -/
def validTimeFieldAmended (s : String) : Bool :=
  s == "" || isDecimalString s ||
    (s.data.contains ':' && isDecChars (beforeColon s) &&
      isDecChars (afterColon s)) ||
    s == "DNF" || s == "DNS" || s == "DSQ"

/-! ### Concrete rosters used to instantiate the theorems -/

/-- A roster with a single racer who entered no race. -/
def racerW : Racer := ⟨"w", [], false⟩

/-- The run of `racerW` alone: no races, empty previous-season archive,
previous zero factors all zero. -/
def envW : Env := ⟨[], [racerW], [], fun _ => 0⟩

/-- A finished result in race 0 with time 63. -/
def resB : ResultData := ⟨some 63, .FIN, 0⟩

/-- A racer who finished race 0 in 60 seconds. -/
def racerA2 : Racer := ⟨"a", [⟨some 60, .FIN, 0⟩], false⟩

/-- A racer who finished race 0 in 63 seconds. -/
def racerB2 : Racer := ⟨"b", [resB], false⟩

/-- The spec's worked scenario: one GS race with times 60 and 63. -/
def envC2 : Env := ⟨[⟨.GS, "Test", none⟩], [racerA2, racerB2], [], fun _ => 0⟩

/-! ### State-threading lemmas for the zero factors -/

theorem bestAvg_snd (env : Env) (z : RaceType → ℚ) (r : Racer) (c rt : RaceType) :
    (bestAvg env z r c).2 rt =
      if rt = c then min (z c) (categoryAvg env r c) else z rt := by
  simp only [bestAvg]
  by_cases h : categoryAvg env r c < z c
  · rw [if_pos h]
    by_cases hrt : rt = c
    · subst hrt
      rw [if_pos rfl, Function.update_same, min_eq_right (le_of_lt h)]
    · rw [if_neg hrt, Function.update_noteq hrt]
  · rw [if_neg h]
    by_cases hrt : rt = c
    · subst hrt
      rw [if_pos rfl, min_eq_left (le_of_not_lt h)]
    · rw [if_neg hrt]

theorem bestAvg_fst (env : Env) (z : RaceType → ℚ) (r : Racer) (c : RaceType) :
    (bestAvg env z r c).1 =
      categoryAvg env r c - min (z c) (categoryAvg env r c) := by
  simp only [bestAvg]
  by_cases h : categoryAvg env r c < z c
  · rw [if_pos h, Function.update_same, min_eq_right (le_of_lt h)]
  · rw [if_neg h, min_eq_left (le_of_not_lt h)]

theorem bestAvg_stable (env : Env) {z : RaceType → ℚ} {r : Racer} {rt : RaceType}
    (hle : z rt ≤ categoryAvg env r rt) :
    bestAvg env z r rt = (categoryAvg env r rt - z rt, z) := by
  simp only [bestAvg]
  rw [if_neg (not_lt.mpr hle)]

theorem seasonAvg_snd (env : Env) (z : RaceType → ℚ) (r : Racer) (rt : RaceType) :
    (seasonAvg env z r).2 rt = min (z rt) (categoryAvg env r rt) := by
  have h : (seasonAvg env z r).2 =
      (bestAvg env (bestAvg env (bestAvg env z r .GS).2 r .SC).2 r .CL).2 := by
    simp only [seasonAvg, RaceType.all, List.foldl_cons, List.foldl_nil]
  rw [h]
  cases rt <;> simp [bestAvg_snd]

theorem seasonAvg_stable (env : Env) {z : RaceType → ℚ} {r : Racer}
    (h : ∀ rt, z rt ≤ categoryAvg env r rt) :
    (seasonAvg env z r).2 = z := by
  have h2 : (seasonAvg env z r).2 =
      (bestAvg env (bestAvg env (bestAvg env z r .GS).2 r .SC).2 r .CL).2 := by
    simp only [seasonAvg, RaceType.all, List.foldl_cons, List.foldl_nil]
  rw [h2, bestAvg_stable env (h .GS), bestAvg_stable env (h .SC),
    bestAvg_stable env (h .CL)]

theorem warm_fold (env : Env) (l : List Racer) (z : RaceType → ℚ) (rt : RaceType) :
    (l.foldl (warmStep env) z) rt =
      (l.map fun r => categoryAvg env r rt).foldl min (z rt) := by
  induction l generalizing z with
  | nil => rfl
  | cons r tl ih =>
    rw [List.foldl_cons, List.map_cons, List.foldl_cons, ih]
    congr 1
    exact seasonAvg_snd env z r rt

theorem foldl_min_le_init (l : List ℚ) (a : ℚ) : l.foldl min a ≤ a := by
  induction l generalizing a with
  | nil => exact le_refl a
  | cons x tl ih => exact le_trans (ih (min a x)) (min_le_left a x)

theorem foldl_min_le_mem {x : ℚ} {l : List ℚ} (hx : x ∈ l) (a : ℚ) :
    l.foldl min a ≤ x := by
  induction l generalizing a with
  | nil => cases hx
  | cons y tl ih =>
    rcases List.mem_cons.mp hx with h | h
    · subst h
      exact le_trans (foldl_min_le_init tl (min a x)) (min_le_right a x)
    · exact ih h (min a y)

theorem warmup_eq (env : Env) (rt : RaceType) :
    warmup env rt =
      (env.racers.map fun r => categoryAvg env r rt).foldl min
        (RaceType.ffactor rt) :=
  warm_fold env env.racers zeroesInit rt

theorem warmup_le_avg (env : Env) {r : Racer} (hr : r ∈ env.racers)
    (rt : RaceType) : warmup env rt ≤ categoryAvg env r rt := by
  rw [warmup_eq]
  exact foldl_min_le_mem (List.mem_map_of_mem _ hr) _

theorem archiveRow_stable (env : Env) {z : RaceType → ℚ} {r : Racer}
    (h : ∀ rt, z rt ≤ categoryAvg env r rt) :
    archiveRow env z r =
      (RaceType.all.map fun rt => (rt, categoryAvg env r rt - z rt), z) := by
  simp only [archiveRow, RaceType.all, List.foldl_cons, List.foldl_nil,
    bestAvg_stable env (h .GS), bestAvg_stable env (h .SC),
    bestAvg_stable env (h .CL), List.map_cons, List.map_nil]
  rfl

theorem seasonobjRacers_fold (env : Env) (l : List Racer)
    (acc : List (String × List (RaceType × ℚ))) {z : RaceType → ℚ}
    (h : ∀ r ∈ l, ∀ rt, z rt ≤ categoryAvg env r rt) :
    l.foldl (seasonobjStep env) (acc, z) =
      (acc ++ l.map fun r =>
        (r.name, RaceType.all.map fun rt => (rt, categoryAvg env r rt - z rt)),
       z) := by
  induction l generalizing acc with
  | nil => simp
  | cons r tl ih =>
    rw [List.foldl_cons]
    have hstep : seasonobjStep env (acc, z) r =
        (acc ++ [(r.name,
          RaceType.all.map fun rt => (rt, categoryAvg env r rt - z rt))], z) := by
      unfold seasonobjStep
      rw [archiveRow_stable env (h r (List.mem_cons_self r tl))]
    rw [hstep, ih _ (fun r2 hr2 rt => h r2 (List.mem_cons_of_mem r hr2) rt)]
    simp

/-- The content of the written season file: each racer's zero-adjusted
category averages, then the final zero factors under the reserved key. -/
theorem seasonobj_eq (env : Env) :
    seasonobj env =
      (env.racers.map fun r =>
        (r.name,
          RaceType.all.map fun rt => (rt, categoryAvg env r rt - warmup env rt)))
      ++ [("data-zeroes", RaceType.all.map fun rt => (rt, warmup env rt))] := by
  have hz : ∀ r ∈ env.racers, ∀ rt, warmup env rt ≤ categoryAvg env r rt :=
    fun r hr rt => warmup_le_avg env hr rt
  unfold seasonobj seasonobjRacers
  rw [seasonobjRacers_fold env env.racers [] hz]
  simp

/-! ### Lemmas about `best_time` -/

theorem resultsIn_raceIdx {env : Env} {ri : ℕ} {pr : Racer × ResultData}
    (hmem : pr ∈ env.resultsIn ri) : pr.2.raceIdx = ri := by
  simp only [Env.resultsIn, List.mem_flatMap, List.mem_map, List.mem_filter,
    beq_iff_eq] at hmem
  obtain ⟨r, _, res, ⟨_, hidx⟩, hpr⟩ := hmem
  rw [← hpr]
  exact hidx

theorem btStep_none {pr : Racer × ResultData} (acc : Option ℚ)
    (h : pr.2.time = none) : btStep acc pr = acc := by
  unfold btStep
  rw [h]

theorem btStep_sn {pr : Racer × ResultData} {t : ℚ} (h : pr.2.time = some t) :
    btStep none pr = some t := by
  unfold btStep
  rw [h]

theorem btStep_ss {pr : Racer × ResultData} {t : ℚ} (a : ℚ)
    (h : pr.2.time = some t) :
    btStep (some a) pr = if t < a then some t else some a := by
  unfold btStep
  rw [h]

theorem btStep_some_le (acc : Option ℚ) (pr : Racer × ResultData) (a : ℚ)
    (h : acc = some a) : ∃ c, btStep acc pr = some c ∧ c ≤ a := by
  subst h
  cases htime : pr.2.time with
  | none => exact ⟨a, btStep_none (some a) htime, le_refl a⟩
  | some t =>
    rw [btStep_ss a htime]
    by_cases hlt : t < a
    · exact ⟨t, by rw [if_pos hlt], le_of_lt hlt⟩
    · exact ⟨a, by rw [if_neg hlt], le_refl a⟩

theorem btStep_time_le (acc : Option ℚ) (pr : Racer × ResultData) (t : ℚ)
    (h : pr.2.time = some t) : ∃ c, btStep acc pr = some c ∧ c ≤ t := by
  cases acc with
  | none => exact ⟨t, btStep_sn h, le_refl t⟩
  | some a =>
    rw [btStep_ss a h]
    by_cases hlt : t < a
    · exact ⟨t, by rw [if_pos hlt], le_refl t⟩
    · exact ⟨a, by rw [if_neg hlt], le_of_not_lt hlt⟩

theorem foldl_btStep_some (l : List (Racer × ResultData)) (a : ℚ) :
    ∃ b, l.foldl btStep (some a) = some b ∧ b ≤ a := by
  induction l generalizing a with
  | nil => exact ⟨a, rfl, le_refl a⟩
  | cons pr tl ih =>
    obtain ⟨c, hc, hca⟩ := btStep_some_le (some a) pr a rfl
    obtain ⟨b, hb, hbc⟩ := ih c
    exact ⟨b, by rw [List.foldl_cons, hc, hb], le_trans hbc hca⟩

theorem foldl_btStep_le {l : List (Racer × ResultData)}
    {pr : Racer × ResultData} {t : ℚ} (hmem : pr ∈ l)
    (ht : pr.2.time = some t) (acc : Option ℚ) :
    ∃ b, l.foldl btStep acc = some b ∧ b ≤ t := by
  induction l generalizing acc with
  | nil => cases hmem
  | cons hd tl ih =>
    rcases List.mem_cons.mp hmem with h | h
    · subst h
      obtain ⟨c, hc, hct⟩ := btStep_time_le acc pr t ht
      obtain ⟨b, hb, hbc⟩ := foldl_btStep_some tl c
      exact ⟨b, by rw [List.foldl_cons, hc, hb], le_trans hbc hct⟩
    · exact ih h (btStep acc hd)

theorem foldl_btStep_mem {l : List (Racer × ResultData)} {b : ℚ}
    (acc : Option ℚ) (h : l.foldl btStep acc = some b) :
    acc = some b ∨ ∃ pr ∈ l, pr.2.time = some b := by
  induction l generalizing acc with
  | nil => exact Or.inl h
  | cons hd tl ih =>
    rw [List.foldl_cons] at h
    rcases ih (btStep acc hd) h with h2 | h2
    · cases htime : hd.2.time with
      | none =>
        rw [btStep_none acc htime] at h2
        exact Or.inl h2
      | some t =>
        cases acc with
        | none =>
          rw [btStep_sn htime] at h2
          refine Or.inr ⟨hd, List.mem_cons_self hd tl, ?_⟩
          rw [htime, Option.some_inj.mp h2]
        | some a =>
          rw [btStep_ss a htime] at h2
          by_cases hlt : t < a
          · rw [if_pos hlt] at h2
            refine Or.inr ⟨hd, List.mem_cons_self hd tl, ?_⟩
            rw [htime, Option.some_inj.mp h2]
          · rw [if_neg hlt] at h2
            exact Or.inl (by rw [Option.some_inj.mp h2])
    · exact Or.inr (h2.imp fun pr hpr => ⟨List.mem_cons_of_mem hd hpr.1, hpr.2⟩)

theorem bestTime_le {env : Env} {ri : ℕ} {pr : Racer × ResultData} {t : ℚ}
    (hmem : pr ∈ env.resultsIn ri) (ht : pr.2.time = some t) :
    ∃ b, bestTime env ri = some b ∧ b ≤ t ∧
      ∃ pr2 ∈ env.resultsIn ri, pr2.2.time = some b := by
  obtain ⟨b, hb, hbt⟩ := foldl_btStep_le hmem ht none
  refine ⟨b, hb, hbt, ?_⟩
  rcases foldl_btStep_mem none hb with h | h
  · cases h
  · exact h

/-! ### Counting lemmas for `place` -/

theorem count_foldl (p : ResultData → Bool) (l : List ResultData) (acc : ℕ) :
    l.foldl (fun a x => if p x then a + 1 else a) acc =
      acc + (l.filter p).length := by
  induction l generalizing acc with
  | nil => simp
  | cons x tl ih =>
    rw [List.foldl_cons, List.filter_cons]
    cases hp : p x with
    | true =>
      rw [if_pos rfl, if_pos rfl, ih, List.length_cons]
      omega
    | false =>
      rw [if_neg (by simp), if_neg (by simp), ih]

theorem count_foldl2 (p : ResultData → Bool) (l : List Racer) (acc : ℕ) :
    l.foldl (fun a r =>
        r.results.foldl (fun a2 x => if p x then a2 + 1 else a2) a) acc =
      acc + (l.flatMap fun r => r.results.filter p).length := by
  induction l generalizing acc with
  | nil => simp
  | cons r tl ih =>
    rw [List.foldl_cons, count_foldl, ih, List.flatMap_cons, List.length_append]
    omega

theorem flatMap_filter_length (l : List Racer) (ri : ℕ) (q : ResultData → Bool) :
    ((l.flatMap fun r =>
        (r.results.filter fun res => res.raceIdx == ri).map fun res =>
          (r, res)).filter fun pr => q pr.2).length =
      (l.flatMap fun r =>
        r.results.filter fun res => (res.raceIdx == ri) && q res).length := by
  induction l with
  | nil => rfl
  | cons r tl ih =>
    rw [List.flatMap_cons, List.flatMap_cons, List.filter_append,
      List.length_append, List.length_append, ih]
    congr 1
    rw [List.filter_map, List.length_map, List.filter_filter]
    congr 1
    apply List.filter_congr
    intro a _
    simp [Function.comp, Bool.and_comm]

/-! ### The `Race.BC` pair list under one-result-per-race rosters -/

theorem points_finish_eq (env : Env) (ri : ℕ) (l : List Racer)
    (h : ∀ r ∈ l, (r.results.filter fun res => res.raceIdx == ri).length ≤ 1) :
    ((l.flatMap fun r =>
        (r.results.filter fun res => res.raceIdx == ri).map fun res =>
          (r, res)).filterMap fun pr =>
      if qualB env pr then some pr.1 else none).flatMap
      (fun r =>
        (r.results.filter fun res => res.raceIdx == ri).map fun res =>
          (Racer.ls env r (env.race ri).rtype, res)) =
    (l.flatMap fun r =>
        (r.results.filter fun res => res.raceIdx == ri).map fun res =>
          (r, res)).filterMap fun pr =>
      if qualB env pr then some (Racer.ls env pr.1 (env.race ri).rtype, pr.2)
      else none := by
  induction l with
  | nil => rfl
  | cons r tl ih =>
    have hl := h r (List.mem_cons_self r tl)
    rw [List.flatMap_cons, List.filterMap_append, List.filterMap_append,
      List.flatMap_append, ih fun r2 hr2 => h r2 (List.mem_cons_of_mem r hr2)]
    congr 1
    rw [List.filterMap_map, List.filterMap_map]
    cases hfr : r.results.filter (fun res => res.raceIdx == ri) with
    | nil => simp
    | cons res0 tl0 =>
      cases tl0 with
      | cons x xs =>
        exfalso
        rw [hfr] at hl
        simp at hl
      | nil =>
        by_cases hq : qualB env (r, res0)
        · simp [hq, hfr, Function.comp]
        · simp [hq, Function.comp]

/-- `Race.BC` computes exactly the spec's pair selection whenever no racer has
two results in the same race. -/
theorem raceBC_eq_qualPairs (env : Env) (ri : ℕ)
    (huniq : ∀ r ∈ env.racers,
      (r.results.filter fun res => res.raceIdx == ri).length ≤ 1) :
    raceBC env ri =
      (((((qualPairs env ri).insertionSort pairLe).take 5).map Prod.fst).sum,
       ((((qualPairs env ri).insertionSort pairLe).take 5).map fun p =>
         (rawPoints env p.2).getD 0).sum) := by
  unfold raceBC qualPairs Env.resultsIn
  simp only [points_finish_eq env ri env.racers huniq]

/-! ### Remaining helper lemmas -/

theorem resultsIn_filter_length (env : Env) (ri : ℕ) (q : ResultData → Bool) :
    ((env.resultsIn ri).filter fun pr => q pr.2).length =
      (env.racers.flatMap fun r =>
        r.results.filter fun res => (res.raceIdx == ri) && q res).length :=
  flatMap_filter_length env.racers ri q

theorem ffactor_pos (rt : RaceType) : 0 < rt.ffactor := by
  cases rt <;> norm_num [RaceType.ffactor]

theorem rawPoints_eq (env : Env) {res : ResultData} {t : ℚ}
    (ht : res.time = some t) {b : ℚ}
    (hb : bestTime env res.raceIdx = some b) :
    rawPoints env res =
      some ((t / b - 1) * (env.race res.raceIdx).rtype.ffactor) := by
  unfold rawPoints
  rw [ht, hb]

/-! ### The claims -/

/-- C1: for every category the zero factor starts at the scale factor, every
`best_avg` step can only lower it (so it never exceeds the scale factor at
any point of a run), and after the warm-up pass it equals the minimum of the
scale factor and the least raw category average over all racers. -/
theorem c1_zero_factor (env : Env) (rt : RaceType) :
    zeroesInit rt = RaceType.ffactor rt ∧
    (∀ z r c, (bestAvg env z r c).2 rt ≤ z rt) ∧
    (∀ l : List Racer,
      (l.foldl (warmStep env) zeroesInit) rt ≤ RaceType.ffactor rt) ∧
    warmup env rt =
      (env.racers.map fun r => categoryAvg env r rt).foldl min
        (RaceType.ffactor rt) := by
  refine ⟨rfl, ?_, ?_, warmup_eq env rt⟩
  · intro z r c
    rw [bestAvg_snd]
    by_cases h : rt = c
    · subst h
      rw [if_pos rfl]
      exact min_le_left _ _
    · rw [if_neg h]
  · intro l
    rw [warm_fold]
    exact foldl_min_le_init _ _

/-- C2: a finished result of a race scores
`raw_points = (time / best_time - 1) * scale_factor`; the value is
nonnegative and is zero exactly when the result's time is the race's best
time. -/
theorem c2_raw_points (env : Env) (ri : ℕ) (pr : Racer × ResultData) (t : ℚ)
    (hmem : pr ∈ env.resultsIn ri) (ht : pr.2.time = some t)
    (hpos : ∀ q ∈ (env.resultsIn ri).filterMap fun x => x.2.time, 0 < q) :
    ∃ b, bestTime env ri = some b ∧ b ≤ t ∧
      rawPoints env pr.2 = some ((t / b - 1) * (env.race ri).rtype.ffactor) ∧
      0 ≤ (t / b - 1) * (env.race ri).rtype.ffactor ∧
      ((t / b - 1) * (env.race ri).rtype.ffactor = 0 ↔ t = b) := by
  obtain ⟨b, hb, hbt, pr2, hpr2, hpr2t⟩ := bestTime_le hmem ht
  have hbpos : 0 < b :=
    hpos b (List.mem_filterMap.mpr ⟨pr2, hpr2, hpr2t⟩)
  have hidx : pr.2.raceIdx = ri := resultsIn_raceIdx hmem
  have hb2 : bestTime env pr.2.raceIdx = some b := by
    rw [hidx]
    exact hb
  have hdiv : 1 ≤ t / b := by
    rw [le_div_iff₀ hbpos]
    linarith
  have hfpos := ffactor_pos (env.race ri).rtype
  refine ⟨b, hb, hbt, ?_, ?_, ?_⟩
  · rw [rawPoints_eq env ht hb2, hidx]
  · exact mul_nonneg (by linarith) (le_of_lt hfpos)
  · constructor
    · intro h0
      rcases mul_eq_zero.mp h0 with h1 | h1
      · have hq : t / b = 1 := by linarith
        exact (div_eq_one_iff_eq (ne_of_gt hbpos)).mp hq
      · exact absurd h1 (ne_of_gt hfpos)
    · intro h
      subst h
      rw [div_self (ne_of_gt hbpos)]
      ring

/-- C2 witness: in the spec's worked scenario (times 60 and 63, GS), the
slower finisher scores `(63/60 - 1) * 660 = 33 ≥ 0`. -/
theorem c2_witness :
    ∃ b, bestTime envC2 0 = some b ∧ b ≤ 63 ∧
      rawPoints envC2 resB = some ((63 / b - 1) * (envC2.race 0).rtype.ffactor) ∧
      0 ≤ (63 / b - 1) * (envC2.race 0).rtype.ffactor ∧
      ((63 / b - 1) * (envC2.race 0).rtype.ffactor = 0 ↔ (63 : ℚ) = b) :=
  c2_raw_points envC2 0 (racerB2, resB) 63 (by decide) (by decide) (by decide)

/-- C3: a race constructed without a penalty override has
`penalty = (A + B - C) / 10`, with `B`/`C` summing the carried scores and raw
points of the five lowest-carried pairs among the top-ten finishers; a race
constructed with an override reports exactly the override value, whatever the
results are. -/
theorem c3_penalty (env : Env) (ri : ℕ)
    (huniq : ∀ r ∈ env.racers,
      (r.results.filter fun res => res.raceIdx == ri).length ≤ 1) :
    ((env.race ri).sto_penalty = none →
      penalty env ri =
        (raceA env ri + (raceBC env ri).1 - (raceBC env ri).2) / 10 ∧
      raceBC env ri =
        (((((qualPairs env ri).insertionSort pairLe).take 5).map Prod.fst).sum,
         ((((qualPairs env ri).insertionSort pairLe).take 5).map fun p =>
           (rawPoints env p.2).getD 0).sum)) ∧
    (∀ p, (env.race ri).sto_penalty = some p → penalty env ri = p) := by
  constructor
  · intro hn
    refine ⟨?_, raceBC_eq_qualPairs env ri huniq⟩
    unfold penalty
    rw [hn]
  · intro p hp
    unfold penalty
    rw [hp]

/-- C3 witness: in the override-free worked scenario the penalty follows the
`(A + B - C) / 10` formula and the spec's pair selection. -/
theorem c3_witness :
    penalty envC2 0 =
      (raceA envC2 0 + (raceBC envC2 0).1 - (raceBC envC2 0).2) / 10 ∧
    raceBC envC2 0 =
      (((((qualPairs envC2 0).insertionSort pairLe).take 5).map Prod.fst).sum,
       ((((qualPairs envC2 0).insertionSort pairLe).take 5).map fun p =>
         (rawPoints envC2 p.2).getD 0).sum) :=
  (c3_penalty envC2 0 (by decide)).1 rfl

/-- C4: `best_two` always returns exactly two values — the two smallest of
the multiset holding the season's finished points together with two copies of
the penalized carry — and with no finished results both returned values are
the penalized carry. -/
theorem c4_best_two (env : Env) (r : Racer) (rt : RaceType) :
    (bestTwo env r rt).length = 2 ∧
    (∃ rest, (bestTwo env r rt ++ rest).Perm
        (seasonPoints env r rt ++
          [lastPenalized env r rt, lastPenalized env r rt]) ∧
      ∀ a ∈ bestTwo env r rt, ∀ b ∈ rest, a ≤ b) ∧
    (seasonPoints env r rt = [] →
      bestTwo env r rt =
        [lastPenalized env r rt, lastPenalized env r rt]) := by
  refine ⟨?_, ?_, ?_⟩
  · rw [bestTwo, List.length_take, List.length_insertionSort,
      List.length_append]
    simp
  · refine ⟨((seasonPoints env r rt ++
      [lastPenalized env r rt, lastPenalized env r rt]).insertionSort
        (· ≤ ·)).drop 2, ?_, ?_⟩
    · rw [bestTwo, List.take_append_drop]
      exact List.perm_insertionSort _ _
    · intro a ha b hbmem
      have hs := List.sorted_insertionSort (α := ℚ) (· ≤ ·)
        (seasonPoints env r rt ++
          [lastPenalized env r rt, lastPenalized env r rt])
      rw [← List.take_append_drop 2 ((seasonPoints env r rt ++
        [lastPenalized env r rt, lastPenalized env r rt]).insertionSort
          (· ≤ ·)), List.Sorted, List.pairwise_append] at hs
      exact hs.2.2 a ha b hbmem
  · intro h
    rw [bestTwo, h]
    simp [List.insertionSort, List.orderedInsert]

/-- C4 witness: a racer with no results in the category gets two copies of
the penalized carry. -/
theorem c4_witness :
    bestTwo envW racerW .GS =
      [lastPenalized envW racerW .GS, lastPenalized envW racerW .GS] :=
  (c4_best_two envW racerW .GS).2.2 rfl

/-- C5: the penalized carry is `min(1.22*carry + 0.22*last_zero, scale)` when
injured and `min(1.44*carry + 0.44*last_zero, scale)` otherwise, and in both
cases it never exceeds the scale factor. -/
theorem c5_last_penalized (env : Env) (r : Racer) (rt : RaceType) :
    lastPenalized env r rt =
      (if r.inj then
        min (1.22 * Racer.ls env r rt + 0.22 * env.lszeroes rt) rt.ffactor
      else
        min (1.44 * Racer.ls env r rt + 0.44 * env.lszeroes rt) rt.ffactor) ∧
    lastPenalized env r rt ≤ rt.ffactor := by
  refine ⟨rfl, ?_⟩
  unfold lastPenalized
  by_cases h : r.inj
  · rw [if_pos h]
    exact min_le_right _ _
  · rw [if_neg h]
    exact min_le_right _ _

/-- C6: a finished result's place is one plus the number of finished results
of the same race with a strictly smaller time; a non-finished result has no
place. -/
theorem c6_place (env : Env) (res : ResultData) :
    (res.finished = true →
      place env res = some (1 +
        ((env.resultsIn res.raceIdx).filter fun pr =>
          pr.2.finished &&
            decide (pr.2.time.getD 0 < res.time.getD 0)).length)) ∧
    (res.finished = false → place env res = none) := by
  constructor
  · intro hf
    unfold place
    rw [if_pos hf, count_foldl2, resultsIn_filter_length env res.raceIdx
      (fun r2 => r2.finished && decide (r2.time.getD 0 < res.time.getD 0))]
    have hpred : (fun r2 : ResultData =>
        r2.raceIdx == res.raceIdx && r2.finished &&
          decide (r2.time.getD 0 < res.time.getD 0)) =
        (fun r2 : ResultData => (r2.raceIdx == res.raceIdx) &&
          (r2.finished && decide (r2.time.getD 0 < res.time.getD 0))) := by
      funext r2
      rw [Bool.and_assoc]
    rw [hpred]
  · intro hf
    unfold place
    rw [if_neg]
    rw [hf]
    exact Bool.false_ne_true

/-- C6 witness: the 63-second finisher behind a 60-second finisher is placed
second. -/
theorem c6_witness :
    place envC2 resB = some (1 +
      ((envC2.resultsIn resB.raceIdx).filter fun pr =>
        pr.2.finished &&
          decide (pr.2.time.getD 0 < resB.time.getD 0)).length) :=
  (c6_place envC2 resB).1 (by decide)

/-- Evaluation of the one-racer roster's season file: every zero factor stays
at its scale factor, so the archived `best_avg` values are all zero. -/
theorem seasonobjW_eval :
    seasonobj envW =
      [("w", [(.GS, 0), (.SC, 0), (.CL, 0)]),
       ("data-zeroes", [(.GS, 660), (.SC, 500), (.CL, 500)])] := by
  norm_num [seasonobj, seasonobjRacers, seasonobjStep, archiveRow, warmup,
    warmStep, seasonAvg, RaceType.all, bestAvg, zeroesInit, categoryAvg,
    bestTwo, seasonPoints, lastPenalized, Racer.ls, carriedOf, envW, racerW,
    RaceType.ffactor, List.lookup]

/-- The raw category average of the roster's only racer: the uncapped carry
`min(1.44 * 660 + 0.44 * 0, 660) = 660` twice, so the mean is `660`. -/
theorem categoryAvgW_eval : categoryAvg envW racerW .GS = 660 := by
  norm_num [categoryAvg, bestTwo, seasonPoints, lastPenalized, Racer.ls,
    carriedOf, envW, racerW, RaceType.ffactor, List.lookup]

/-- C7 fails as stated: the written archive stores the zero-adjusted
`best_avg`, not the raw category average. For the one-racer roster the
archived GS value is `0` while the racer's `category_average` is `660`. -/
theorem c7_counterexample :
    seasonobj envW =
      [("w", [(.GS, 0), (.SC, 0), (.CL, 0)]),
       ("data-zeroes", [(.GS, 660), (.SC, 500), (.CL, 500)])] ∧
    categoryAvg envW racerW .GS = 660 ∧ (0 : ℚ) ≠ 660 :=
  ⟨seasonobjW_eval, categoryAvgW_eval, by norm_num⟩

/-- C7 amended: the archive maps every racer's name to the per-category
zero-adjusted averages (`category_average - final zero_factor`) and the
reserved key to each category's final zero factor. -/
theorem c7_archive (env : Env) :
    seasonobj env =
      (env.racers.map fun r =>
        (r.name,
          RaceType.all.map fun rt =>
            (rt, categoryAvg env r rt - warmup env rt)))
      ++ [("data-zeroes", RaceType.all.map fun rt => (rt, warmup env rt))] :=
  seasonobj_eq env

theorem clamp_eq_min (v f : ℚ) : (if f < v then f else v) = min v f := by
  by_cases h : f < v
  · rw [if_pos h, min_eq_right (le_of_lt h)]
  · rw [if_neg h, min_eq_left (le_of_not_lt h)]

theorem lookup_shape {β : Type} (P : β → Prop) :
    ∀ (l : List (String × β)) (a : String) (e : β),
      (∀ p ∈ l, P p.2) → l.lookup a = some e → P e := by
  intro l
  induction l with
  | nil =>
    intro a e _ h
    cases h
  | cons p tl ih =>
    intro a e hall hlk
    obtain ⟨k, v⟩ := p
    rw [List.lookup] at hlk
    cases hak : a == k with
    | true =>
      rw [hak] at hlk
      exact Option.some_inj.mp hlk ▸ hall (k, v) (List.mem_cons_self _ _)
    | false =>
      rw [hak] at hlk
      exact ih a e (fun q hq => hall q (List.mem_cons_of_mem _ hq)) hlk

theorem lookup_all (f : RaceType → ℚ) (rt : RaceType) :
    (RaceType.all.map fun c => (c, f c)).lookup rt = some (f rt) := by
  cases rt <;> rfl

/-- Every entry of a written season file assigns a value to every category. -/
theorem seasonobj_entry_shape (env : Env) {name : String}
    {e : List (RaceType × ℚ)} (h : (seasonobj env).lookup name = some e) :
    ∃ f : RaceType → ℚ, e = RaceType.all.map fun c => (c, f c) := by
  refine lookup_shape (fun e2 => ∃ f : RaceType → ℚ,
    e2 = RaceType.all.map fun c => (c, f c)) (seasonobj env) name e ?_ h
  intro p hp
  rw [seasonobj_eq env] at hp
  rcases List.mem_append.mp hp with hp2 | hp2
  · obtain ⟨r, _, hr⟩ := List.mem_map.mp hp2
    exact ⟨fun c => categoryAvg env r c - warmup env c, by rw [← hr]⟩
  · rw [List.mem_singleton.mp hp2]
    exact ⟨fun c => warmup env c, rfl⟩

/-- C8: loading a season file written by a run gives back every written value
clamped at the category's scale factor; a racer absent from the archive, or a
category absent from an entry, falls back to the scale factor, and written
entries do contain every category. -/
theorem c8_round_trip (env : Env) (name : String) (rt : RaceType) :
    (∀ e v, (seasonobj env).lookup name = some e → e.lookup rt = some v →
      carriedOf (seasonobj env) name rt = min v rt.ffactor) ∧
    ((seasonobj env).lookup name = none →
      carriedOf (seasonobj env) name rt = rt.ffactor) ∧
    (∀ e, (seasonobj env).lookup name = some e → ∃ v, e.lookup rt = some v) ∧
    (∀ arch : List (String × List (RaceType × ℚ)), ∀ e,
      arch.lookup name = some e → e.lookup rt = none →
      carriedOf arch name rt = rt.ffactor) := by
  refine ⟨?_, ?_, ?_, ?_⟩
  · intro e v he hv
    simp only [carriedOf, loadScore, he, hv]
    exact clamp_eq_min v rt.ffactor
  · intro he
    simp only [carriedOf, he]
  · intro e he
    obtain ⟨f, hf⟩ := seasonobj_entry_shape env he
    refine ⟨f rt, ?_⟩
    rw [hf]
    exact lookup_all f rt
  · intro arch e he hv
    simp only [carriedOf, loadScore, he, hv]

/-- C8 witness: the one-racer roster's written GS value `0` reloads as
`min 0 660 = 0`. -/
theorem c8_witness :
    carriedOf (seasonobj envW) "w" RaceType.GS = min 0 RaceType.GS.ffactor :=
  (c8_round_trip envW "w" .GS).1 [(.GS, 0), (.SC, 0), (.CL, 0)] 0
    (by rw [seasonobjW_eval]; rfl) (by rfl)

/-- C9 fails as stated: `"1e1:5"` is neither empty, nor a decimal string, nor
an `MM:SS(.ss)` value, nor a status token, yet `timeeval` accepts it (the
colon branch accepts any pair of decimal strings). -/
theorem c9_counterexample :
    (timeeval "1e1:5").isSome = true ∧ validTimeFieldSpec "1e1:5" = false :=
  ⟨by decide, by decide⟩

theorem mapM_eq_none {α β : Type} (f : α → Option β) :
    ∀ (l : List α) (a : α), a ∈ l → f a = none → l.mapM f = none := by
  intro l
  induction l with
  | nil =>
    intro a h
    cases h
  | cons x tl ih =>
    intro a ha hfa
    rw [List.mapM_cons]
    rcases List.mem_cons.mp ha with h | h
    · subst h
      rw [hfa]
      rfl
    · cases hfx : f x with
      | none => rfl
      | some y =>
        rw [ih a h hfa]
        rfl

/-- C9 amended: `timeeval` succeeds exactly on the empty field, a decimal
value, a colon-separated pair of decimal values, or one of the three status
tokens; a failing field makes the whole load fail, so no archive object is
produced. -/
theorem c9_timeeval (s : String) (rows : List (List String))
    (row : List String) (fld : String) (hrow : row ∈ rows) (hf : fld ∈ row)
    (hbad : timeeval fld = none) :
    ((timeeval s).isSome = true ↔ validTimeFieldAmended s = true) ∧
    loadTimes rows = none ∧
    (∀ k, runArchive rows k = none) := by
  have hload : loadTimes rows = none := by
    unfold loadTimes
    exact mapM_eq_none _ rows row hrow (mapM_eq_none _ row fld hf hbad)
  refine ⟨?_, hload, fun k => by unfold runArchive; rw [hload]; rfl⟩
  have hval : validTimeFieldAmended s = true ↔
      (s = "" ∨ isDecimalString s = true ∨
        (':' ∈ s.data ∧ (isDecChars (beforeColon s) = true ∧
          isDecChars (afterColon s) = true)) ∨
        s = "DNF" ∨ s = "DNS" ∨ s = "DSQ") := by
    simp [validTimeFieldAmended, or_assoc, and_assoc]
  rw [hval]
  by_cases h1 : s = ""
  · simp [timeeval, h1]
  by_cases h2 : isDecimalString s = true
  · simp [timeeval, h1, h2]
  by_cases h3 : s.data.contains ':' = true
  · have h3m : ':' ∈ s.data := by simpa using h3
    have hdnf : s ≠ "DNF" := by
      intro hs
      rw [hs] at h3
      exact absurd h3 (by decide)
    have hdns : s ≠ "DNS" := by
      intro hs
      rw [hs] at h3
      exact absurd h3 (by decide)
    have hdsq : s ≠ "DSQ" := by
      intro hs
      rw [hs] at h3
      exact absurd h3 (by decide)
    by_cases h4a : isDecChars (beforeColon s) = true
    · by_cases h4b : isDecChars (afterColon s) = true
      · simp [timeeval, h1, h2, h3, h3m, h4a, h4b]
      · simp [timeeval, h1, h2, h3, h3m, h4a, h4b, hdnf, hdns, hdsq]
    · simp [timeeval, h1, h2, h3, h3m, h4a, hdnf, hdns, hdsq]
  · have h3m : ¬ (':' ∈ s.data) := by simpa using h3
    by_cases h5 : s = "DNF"
    · subst h5
      decide
    by_cases h6 : s = "DNS"
    · subst h6
      decide
    by_cases h7 : s = "DSQ"
    · subst h7
      decide
    · simp [timeeval, h1, h2, h3, h3m, h5, h6, h7]

/-- C9 witness: `"60"` is a decimal time and is accepted; a row containing
the malformed field `"x"` makes the load and the whole run produce nothing. -/
theorem c9_witness :
    ((timeeval "60").isSome = true ↔ validTimeFieldAmended "60" = true) ∧
    loadTimes [["x"]] = none ∧
    (∀ k, runArchive [["x"]] k = none) :=
  c9_timeeval "60" [["x"]] ["x"] "x" (by decide) (by decide) (by decide)

/-- C10: `best_avg` is idempotent — a second evaluation returns the same
value and leaves the zero state untouched — and after the warm-up pass both
`best_avg` and `season_avg` of any rostered racer leave every zero factor
unchanged and return the stable zero-adjusted values, independently of any
further evaluation order. -/
theorem c10_idempotent (env : Env) (z : RaceType → ℚ) (r : Racer)
    (rt : RaceType) (hr : r ∈ env.racers) :
    (bestAvg env (bestAvg env z r rt).2 r rt).1 = (bestAvg env z r rt).1 ∧
    (bestAvg env (bestAvg env z r rt).2 r rt).2 = (bestAvg env z r rt).2 ∧
    bestAvg env (warmup env) r rt =
      (categoryAvg env r rt - warmup env rt, warmup env) ∧
    (seasonAvg env (warmup env) r).2 = warmup env := by
  have hz1 : (bestAvg env z r rt).2 rt =
      min (z rt) (categoryAvg env r rt) := by
    rw [bestAvg_snd, if_pos rfl]
  have hle : (bestAvg env z r rt).2 rt ≤ categoryAvg env r rt := by
    rw [hz1]
    exact min_le_right _ _
  have hstable := bestAvg_stable env hle
  refine ⟨?_, ?_, bestAvg_stable env (warmup_le_avg env hr rt),
    seasonAvg_stable env fun c => warmup_le_avg env hr c⟩
  · rw [hstable, bestAvg_fst env z r rt, hz1]
  · rw [hstable]

/-- C10 witness: after the warm-up of the one-racer roster, `season_avg`
leaves the zero factors unchanged. -/
theorem c10_witness :
    (seasonAvg envW (warmup envW) racerW).2 = warmup envW :=
  (c10_idempotent envW zeroesInit racerW .GS (by decide)).2.2.2

end USTSA
